import Mathlib

/-!
Verification development for the Rust graphics-context / shader-pipeline core
(`src/context.rs`, `src/shader.rs`).  Rust strings are embedded as `List Char`;
the string primitives used by the source (`str::lines`, `str::trim`,
`str::split('"')`, `starts_with`) are re-implemented faithfully below.
Driver-side effects (GL calls, file reads) are modelled as oracles or event
traces so that the control flow of the Rust functions can be replayed exactly.
-/

/-- Rust `&str` / `String`, embedded as a list of characters. -/
abbrev Str := List Char

/-- Convenience: turn a Lean string literal into the embedded representation. -/
def lit (s : String) : Str := s.data

/-- ASCII whitespace test: space plus the control characters 9..13.
This is the ASCII fragment of Rust's `char::is_whitespace` (Unicode
`White_Space`), which is what shader sources use. -/
def isWS (c : Char) : Bool := c == ' ' || (9 ≤ c.toNat && c.toNat ≤ 13)

/-- Rust `str::trim_start` (ASCII fragment). -/
def trimLeftS (s : Str) : Str := s.dropWhile isWS

/-- Rust `str::trim_end` (ASCII fragment): drop the maximal whitespace
suffix. -/
def trimRightS : Str → Str
  | [] => []
  | c :: cs =>
    match trimRightS cs with
    | [] => if isWS c then [] else [c]
    | r => c :: r

/-- Rust `str::trim` (ASCII fragment), as used by `ShaderSource::preprocess`. -/
def trimS (s : Str) : Str := trimRightS (trimLeftS s)

/-- Rust `str::starts_with` on string patterns. -/
def startsWithB : Str → Str → Bool
  | [], _ => true
  | _ :: _, [] => false
  | a :: ps, b :: ss => a == b && startsWithB ps ss

/-- Naive substring test: whether `p` occurs contiguously inside `s`. -/
def isInfixB (p : Str) : Str → Bool
  | [] => startsWithB p []
  | c :: rest => startsWithB p (c :: rest) || isInfixB p rest

/-- Rust `str::split(sep)` for a one-character separator, as in
`line.split('"')` of `ShaderSource::preprocess`.  Always returns at least one
piece; a separator occurrence adds a piece. -/
def splitOnChar (sep : Char) : Str → List Str
  | [] => [[]]
  | c :: cs =>
    if c = sep then [] :: splitOnChar sep cs
    else
      match splitOnChar sep cs with
      | [] => [[c]]
      | l :: ls => (c :: l) :: ls

/-- Helper for `linesAux`: the accumulator holds the current line reversed;
on a `'\n'` terminator Rust's `str::lines` drops one `'\r'` directly before
the `'\n'`, then the line is un-reversed. -/
def dropCRrev : Str → Str
  | [] => []
  | c :: rest => if c = '\r' then rest.reverse else (c :: rest).reverse

/-- Worker for `linesR`; `cur` is the current (unterminated) line, reversed. -/
def linesAux : Str → Str → List Str
  | [], cur => if cur.isEmpty then [] else [cur.reverse]
  | c :: cs, cur =>
    if c = '\n' then dropCRrev cur :: linesAux cs []
    else linesAux cs (c :: cur)

/-- Rust `str::lines`: split at `'\n'` or `"\r\n"`; the final line ending is
optional, and a final line without a terminator keeps a trailing `'\r'`. -/
def linesR (s : Str) : List Str := linesAux s []

/-- Join such that every line gets a trailing newline, matching how
`ShaderSource::preprocess` pushes each processed line plus `'\n'` into its
output buffer. -/
def unlines : List Str → Str
  | [] => []
  | l :: ls => l ++ '\n' :: unlines ls

/-- Decimal digit character, i.e. what Rust's `{}` formatting of an integer
emits per digit. -/
def digitChar (d : Nat) : Char := Char.ofNat (48 + d)

/-- Worker for `natChars`, accumulating digits most-significant first. -/
def natCharsAux (n : Nat) (acc : Str) : Str :=
  if h : n < 10 then digitChar n :: acc
  else natCharsAux (n / 10) (digitChar (n % 10) :: acc)
termination_by n
decreasing_by
  exact Nat.div_lt_self (by omega) (by omega)

/-- Decimal rendering of a natural number, mirroring Rust `format!("{}", n)`. -/
def natChars (n : Nat) : Str := natCharsAux n []

/-!
Deferred destruction queue (`src/context.rs` lines 65-101, 504-509).
-/

/-- The `Message` enum of `context.rs`: one destruction request per GPU object
kind, carrying the native handle (embedded as `Nat`). -/
inductive Message where
  | deleteBuffer (h : Nat)
  | deleteVertexArray (h : Nat)
  | deleteProgram (h : Nat)
  | deleteTexture (h : Nat)
  | deleteSampler (h : Nat)
  | deleteFramebuffer (h : Nat)
deriving DecidableEq

/-- Driver-side destroy calls, one per `gl.delete_*` call that
`Message::execute` can issue. -/
inductive GlDelete where
  | buffer (h : Nat)
  | vertexArray (h : Nat)
  | program (h : Nat)
  | texture (h : Nat)
  | sampler (h : Nat)
  | framebuffer (h : Nat)
deriving DecidableEq

/-- The `Message::execute` dispatch of `context.rs`: each message kind issues
the corresponding `gl.delete_*` driver call. -/
def Message.execute : Message → GlDelete
  | .deleteBuffer h => .buffer h
  | .deleteVertexArray h => .vertexArray h
  | .deleteProgram h => .program h
  | .deleteTexture h => .texture h
  | .deleteSampler h => .sampler h
  | .deleteFramebuffer h => .framebuffer h

/-- Modelled from the spec: the enqueue operation on the process-wide
`MESSAGE_QUEUE` (spec section 4.3, "simple mutex-protected push"); the push
itself lives outside the provided sources, but `MESSAGE_QUEUE` is a
`Mutex<Vec<Message>>` and `Vec::push` appends at the back. -/
def enqueue (q : List Message) (m : Message) : List Message := q ++ [m]

/-- The `Context::execute_messages` drain of `context.rs`: `queue.drain(..)`
yields the pending messages front to back, each is executed in that order,
and the vector is left empty.  Returns the issued destroy calls in execution
order together with the queue contents after the drain. -/
def executeMessages (q : List Message) : List GlDelete × List Message :=
  (q.map Message.execute, [])

/-!
Cross-thread context guard protocol (`src/context.rs` lines 134-175).
`SafeContext::lock` acquires the mutex and then makes the GL context current
(`ContextWrap::new`); dropping the `ContextWrap` releases currency and then
the mutex guard.  Threads are embedded as `Nat`.
-/

/-- Instantaneous protocol state: whether the `SafeContext` mutex is free, the
threads owning a live `ContextWrap` guard, and the threads that have the GL
context current (made current without a matching release yet). -/
structure LockState where
  mutexFree : Bool
  guards : List Nat
  current : List Nat
deriving DecidableEq

/-- Protocol events: a thread returns from `SafeContext::lock`, or drops its
`ContextWrap` guard. -/
inductive LockEv where
  | lock (t : Nat)
  | unlock (t : Nat)

/-- Small-step semantics of the guard protocol.  `lock t` can only fire when
the mutex is free (Rust `Mutex::lock` blocks otherwise) and atomically makes
`t` a guard holder and the current thread; `unlock t` can only be performed by
a live guard holder and releases currency and the mutex. -/
inductive LockStep : LockState → LockEv → LockState → Prop where
  | lock (t : Nat) (g c : List Nat) :
      LockStep ⟨true, g, c⟩ (.lock t) ⟨false, t :: g, t :: c⟩
  | unlock (t : Nat) (g c : List Nat) (ht : t ∈ g) :
      LockStep ⟨false, g, c⟩ (.unlock t) ⟨true, g.erase t, c.erase t⟩

/-- Initial state: `SafeContext::new` released currency from the owning
thread, no guard is live, the mutex is free. -/
def initLock : LockState := ⟨true, [], []⟩

/-- States reachable by any interleaving of lock/unlock events. -/
inductive ReachableLock : LockState → Prop where
  | init : ReachableLock initLock
  | step (s : LockState) (e : LockEv) (s' : LockState) :
      ReachableLock s → LockStep s e s' → ReachableLock s'

/-- Strengthened inductive invariant of the guard protocol. -/
def lockInv (s : LockState) : Prop :=
  (s.mutexFree = true ∧ s.guards = [] ∧ s.current = []) ∨
  (s.mutexFree = false ∧ ∃ t, s.guards = [t] ∧ s.current = [t])

/-!
Context-version negotiation and singleton publication
(`src/context.rs` lines 263-298, 496-498).
-/

/-- The retry structure of `Context::new`: try `create_context` at (4,6);
if that fails try once at (3,3); if that also fails, bail with "Foo".  The
environment oracle says whether a given version pair can be created (yielding
a window/context handle).  Returns the list of attempted version pairs in
order, plus the outcome. -/
def Context.negotiate (env : Nat → Nat → Option Nat) :
    List (Nat × Nat) × Except Str Nat :=
  match env 4 6 with
  | Option.some v => ([(4, 6)], Except.ok v)
  | Option.none =>
    match env 3 3 with
    | Option.some v => ([(4, 6), (3, 3)], Except.ok v)
    | Option.none => ([(4, 6), (3, 3)], Except.error (lit "Foo"))

/-- Rust `OnceLock::set`: populates the write-once slot only when empty; when
already populated the attempt is discarded (the `Err` result is ignored by
`Context::new` via `let _ = CONTEXT.set(ctx)`). -/
def onceLockSet (slot : Option Nat) (v : Nat) : Option Nat :=
  match slot with
  | Option.some old => Option.some old
  | Option.none => Option.some v

/-- The tail of `Context::new`: `let _ = CONTEXT.set(ctx);
Ok(CONTEXT.get().unwrap())`.  Context identities are embedded as `Nat`; the
result is the slot after the publication attempt and the reference returned
to the caller (`getD 0` stands for the `unwrap` of a slot that is provably
always populated here). -/
def Context.publish (slot : Option Nat) (ctx : Nat) : Option Nat × Nat :=
  let slot2 := onceLockSet slot ctx
  (slot2, slot2.getD 0)

/-!
Shader source preprocessor (`src/shader.rs` lines 81-136).  The data-file
collaborator (`ndata::read` plus UTF-8 decoding) is an oracle
`fs : Str → Option Str`; the unguarded `#include` recursion is bounded by a
fuel parameter consumed only by `load_file`.  Each operation returns the list
of files successfully loaded (in load order) alongside the `Result`.
-/

/-- Error cases of the preprocessor pipeline. -/
inductive PErr where
  | syntaxErr
  | readErr (path : Str)
  | noSource
  | fuelOut
deriving DecidableEq

/-- The loop body of `ShaderSource::preprocess`, parameterised by the
`load_file` callback `ld` so that the list recursion is structural.  For each
line: trim it; if the trimmed line starts with `#include`, take
`line.split('"').nth(1)` as the include path (syntax error when absent), load
and splice that file plus a newline; otherwise copy the trimmed line plus a
newline. -/
def ppWith (ld : Str → List Str × Except PErr Str) :
    List Str → List Str × Except PErr Str
  | [] => ([], Except.ok [])
  | l :: ls =>
    let line := trimS l
    if startsWithB (lit "#include") line then
      match (splitOnChar '"' line).get? 1 with
      | Option.none => ([], Except.error PErr.syntaxErr)
      | Option.some inc =>
        match ld inc with
        | (lds, Except.error e) => (lds, Except.error e)
        | (lds, Except.ok incStr) =>
          match ppWith ld ls with
          | (lds2, Except.error e) => (lds ++ lds2, Except.error e)
          | (lds2, Except.ok rest) => (lds ++ lds2, Except.ok (incStr ++ '\n' :: rest))
    else
      match ppWith ld ls with
      | (lds2, Except.error e) => (lds2, Except.error e)
      | (lds2, Except.ok rest) => (lds2, Except.ok (line ++ '\n' :: rest))

/-- `ShaderSource::load_file`: prefix the fixed `glsl/` root, read the file
through the data collaborator, and recursively preprocess its contents.  A
fuel of zero stands for the unbounded recursion of the source (include
cycles) never returning. -/
def loadFile (fs : Str → Option Str) : Nat → Str → List Str × Except PErr Str
  | 0, _ => ([], Except.error PErr.fuelOut)
  | Nat.succ fuel, path =>
    let fullpath := lit "glsl/" ++ path
    match fs fullpath with
    | Option.none => ([], Except.error (PErr.readErr fullpath))
    | Option.some d =>
      let r := ppWith (fun q => loadFile fs fuel q) (linesR d)
      (fullpath :: r.1, r.2)

/-- `ShaderSource::preprocess` at the top level: split the input into lines
and run the preprocessor loop, resolving includes via `load_file`. -/
def preprocess (fs : Str → Option Str) (fuel : Nat) (d : Str) :
    List Str × Except PErr Str :=
  ppWith (fun q => loadFile fs fuel q) (linesR d)

/-- Whether a raw input line is an include directive: its trimmed form starts
with `#include`. -/
def isIncludeLine (l : Str) : Bool := startsWithB (lit "#include") (trimS l)

/-- An input text containing no include-directive lines. -/
def noIncludeLine (d : Str) : Prop := ∀ l ∈ linesR d, isIncludeLine l = false

/-- Concrete one-file data collaborator used by concrete evaluations: the file
`glsl/b` holds the single line `X`. -/
def fsB : Str → Option Str :=
  fun p => if p = lit "glsl/b" then Option.some (lit "X") else Option.none

/-- The `ShaderSource` enum: a named file path, inline text, or absent. -/
inductive ShaderSource where
  | path (p : Str)
  | data (d : Str)
  | none
deriving DecidableEq

/-- `ShaderSource::to_string`: resolve a path through `load_file`, preprocess
inline data directly, and fail with a "no source" error when absent. -/
def ShaderSource.resolve (fs : Str → Option Str) (fuel : Nat) :
    ShaderSource → List Str × Except PErr Str
  | .path p => loadFile fs fuel p
  | .data d => preprocess fs fuel d
  | .none => ([], Except.error PErr.noSource)

/-- `ShaderSource::name`: the diagnostic identifier of a source — the file
path itself, or the sentinel `DATA` for inline sources, or `NONE`. -/
def ShaderSource.name : ShaderSource → Str
  | .path p => p
  | .data _ => lit "DATA"
  | .none => lit "NONE"

/-!
Shader compile and link (`src/shader.rs` lines 31-78).  Driver responses are
an oracle; the model records the diagnostic lines logged, the warnings
emitted, and the returned result, exactly along the Rust control flow.
-/

/-- Driver oracle for one `Shader::compile` call: whether `create_shader`
succeeds, the shader handle it yields, the compile status, and the driver
info log. -/
structure GlShaderOracle where
  createOk : Bool
  shaderId : Nat
  compileOk : Bool
  infoLog : Str
deriving DecidableEq

/-- Observable outcome of `Shader::compile`: the `(index, line)` pairs dumped
via `nelog!`, the `warn!` messages, and the returned result. -/
structure CompileOut where
  logged : List (Nat × Str)
  warned : List Str
  result : Except Str Nat

/-- The `warn!` text of the compile-failure path:
`Failed to compile shader '<name>': [[\n<log>\n]]`. -/
def compileWarn (nm log : Str) : Str :=
  lit "Failed to compile shader '" ++ nm ++ lit "': [[\n" ++ log ++ lit "\n]]"

/-- `Shader::compile`: create the stage object, hand the source to the
driver, and on compile failure dump every source line with its (0-based)
line number, capture the driver info log into a warning naming `nm`, and
return the fixed error message.  On success return the stage handle. -/
def Shader.compile (gl : GlShaderOracle) (nm src : Str) : CompileOut :=
  if gl.createOk = false then ⟨[], [], Except.error (lit "create shader failed")⟩
  else if gl.compileOk then ⟨[], [], Except.ok gl.shaderId⟩
  else
    ⟨(linesR src).enum, [compileWarn nm gl.infoLog],
      Except.error (lit "failed to compile shader program")⟩

/-- Driver oracle for one `Shader::link` call. -/
structure GlLinkOracle where
  createOk : Bool
  programId : Nat
  linkOk : Bool
  infoLog : Str
deriving DecidableEq

/-- Observable outcome of `Shader::link`: the stage objects deleted (in
deletion order), the `warn!` messages, and the returned result. -/
structure LinkOut where
  deleted : List Nat
  warned : List Str
  result : Except Str Nat

/-- The `warn!` text of the link-failure path. -/
def linkWarn (log : Str) : Str :=
  lit "Failed to link shader: [[\n" ++ log ++ lit "\n]]"

/-- `Shader::link`: create the program (early return on failure), attach both
stages, link, then delete both stage objects before the status check; on link
failure capture the driver info log into a warning and return the fixed link
error message. -/
def Shader.link (gl : GlLinkOracle) (vertshader fragshader : Nat) : LinkOut :=
  if gl.createOk = false then ⟨[], [], Except.error (lit "create program failed")⟩
  else if gl.linkOk then ⟨[vertshader, fragshader], [], Except.ok gl.programId⟩
  else
    ⟨[vertshader, fragshader], [linkWarn gl.infoLog],
      Except.error (lit "failed to link shader program")⟩

/-!
Shader builder composition (`src/shader.rs` lines 138-207).
-/

/-- The builder state relevant to composition: the two stage sources and the
caller-supplied prepend text. -/
structure ShaderBuilderS where
  vert : ShaderSource
  frag : ShaderSource
  prepend : Str
deriving DecidableEq

/-- The version directive of the generated prologue, `#version <glsl>`. -/
def versionLine (glsl : Nat) : Str := lit "#version " ++ natChars glsl

/-- The generated prologue of `ShaderBuilder::build`:
`#version <glsl>`, a blank line, the `GLSL_VERSION` macro, and the fixed
capability macro, each newline-terminated. -/
def glslPrologue (glsl : Nat) : Str :=
  lit "#version " ++ natChars glsl ++ lit "\n\n#define GLSL_VERSION " ++
    natChars glsl ++ lit "\n#define HAS_GL_ARB_shader_subroutine 1\n"

/-- Stage-source composition of `ShaderBuilder::build`: the preprocessed body,
with the caller prepend inserted at position 0 when non-empty, and the
generated prologue then inserted at position 0. -/
def composeStage (glsl : Nat) (prepend body : Str) : Str :=
  glslPrologue glsl ++ ((if prepend.length > 0 then prepend else []) ++ body)

/-- The source-composition phase of `ShaderBuilder::build`: resolve both stage
sources (propagating their errors) and compose each with the prologue and the
caller prepend. -/
def buildSources (fs : Str → Option Str) (fuel : Nat) (glsl : Nat)
    (b : ShaderBuilderS) : Except PErr (Str × Str) :=
  match (ShaderSource.resolve fs fuel b.vert).2 with
  | Except.error e => Except.error e
  | Except.ok vb =>
    match (ShaderSource.resolve fs fuel b.frag).2 with
    | Except.error e => Except.error e
    | Except.ok fb =>
      Except.ok (composeStage glsl b.prepend vb, composeStage glsl b.prepend fb)

/-!
Rectangle drawing (`src/context.rs` lines 511-536).  The buffer and vertex
array collaborators (`src/buffer.rs`, outside the provided sources) are
opaque bindable resources per the spec; their bind/unbind/write calls are
recorded as events, and the fallible uniform write is an oracle.
-/

/-- Driver/collaborator events issued by `Context::draw_rect_ex`. -/
inductive GlEv where
  | useProgram (p : Nat)
  | bindVertexArray (v : Nat)
  | writeBuffer (b : Nat)
  | bindBufferBase (b : Nat) (idx : Nat)
  | drawArrays (count : Nat)
  | unbindVertexArray
  | unbindBuffer (b : Nat)
deriving DecidableEq

/-- The shared resources of a freshly constructed `Context` that
`draw_rect_ex` touches: the solid shader program, the square vertex array,
and the solid uniform buffer. -/
structure DrawCtx where
  programSolid : Nat
  vaoSquare : Nat
  bufferSolid : Nat
deriving DecidableEq

/-- `Context::draw_rect_ex`: use the solid program, bind the square vertex
array, serialise and write the uniform (early `?` return on failure), bind
the uniform buffer to slot 0, issue one `draw_arrays` call, then unbind the
vertex array and the uniform buffer.  `writeOk` is the oracle for the
fallible `uniform.buffer()? / buffer_solid.write(..)?` step. -/
def drawRectEx (c : DrawCtx) (writeOk : Bool) : List GlEv × Except Unit Unit :=
  if writeOk then
    ([.useProgram c.programSolid, .bindVertexArray c.vaoSquare,
      .writeBuffer c.bufferSolid, .bindBufferBase c.bufferSolid 0,
      .drawArrays 4, .unbindVertexArray, .unbindBuffer c.bufferSolid],
      Except.ok ())
  else
    ([.useProgram c.programSolid, .bindVertexArray c.vaoSquare],
      Except.error ())

/-- `Context::draw_rect`: computes the transform/colour uniform (infallible
matrix arithmetic, irrelevant to binding behaviour) and delegates to
`draw_rect_ex`. -/
def drawRect (c : DrawCtx) (writeOk : Bool) : List GlEv × Except Unit Unit :=
  drawRectEx c writeOk

/-- Binding state of the driver as observed through the events. -/
structure BindState where
  program : Option Nat
  vao : Option Nat
  uniformBinding : Option Nat
deriving DecidableEq

/-- Effect of one event on the binding state. -/
def applyEv (s : BindState) : GlEv → BindState
  | .useProgram p => { s with program := Option.some p }
  | .bindVertexArray v => { s with vao := Option.some v }
  | .writeBuffer _ => s
  | .bindBufferBase b _ => { s with uniformBinding := Option.some b }
  | .drawArrays _ => s
  | .unbindVertexArray => { s with vao := Option.none }
  | .unbindBuffer _ => { s with uniformBinding := Option.none }

/-- Replay a trace of events over a binding state. -/
def replay (s : BindState) (evs : List GlEv) : BindState := evs.foldl applyEv s

/-- Number of draw calls in a trace. -/
def drawCount (evs : List GlEv) : Nat :=
  evs.countP (fun e => match e with | .drawArrays _ => true | _ => false)

/-- Binding state of a freshly constructed context as far as the claim is
concerned: nothing bound. -/
def initBind : BindState := ⟨Option.none, Option.none, Option.none⟩

/-!
Theorems.  Helper lemmas come first, then one theorem per claim (with
witnesses and counterexamples as required).
-/

theorem foldl_enqueue (ms : List Message) : ∀ q, ms.foldl enqueue q = q ++ ms := by
  induction ms with
  | nil => intro q; simp
  | cons m ms ih => intro q; simp [enqueue, ih]

/-- C1: draining the process-wide destruction queue with `execute_messages`
issues the destroy call of every pending message in exactly the enqueue
(FIFO) order, and leaves the queue empty.  The mutex around `MESSAGE_QUEUE`
serialises concurrent `enqueue` calls into the total order `ms`. -/
theorem executeMessages_fifo_and_empties (ms : List Message) :
    executeMessages (ms.foldl enqueue []) = (ms.map Message.execute, []) := by
  rw [foldl_enqueue ms []]
  simp [executeMessages]

theorem lockInv_reachable (s : LockState) (h : ReachableLock s) : lockInv s := by
  induction h with
  | init => exact Or.inl ⟨rfl, rfl, rfl⟩
  | step s e s' hr hstep ih =>
    cases hstep with
    | lock t g c =>
      rcases ih with ⟨_, hg, hc⟩ | ⟨hfalse, _⟩
      · exact Or.inr ⟨rfl, t, by simp_all, by simp_all⟩
      · simp at hfalse
    | unlock t g c ht =>
      rcases ih with ⟨htrue, _, _⟩ | ⟨_, u, hg, hc⟩
      · simp at htrue
      · subst hg; subst hc
        have : t = u := by simpa using ht
        subst this
        exact Or.inl ⟨rfl, by simp, by simp⟩

/-- C2: in every state reachable by any interleaving of `SafeContext::lock`
acquisitions and guard drops, at most one `ContextWrap` guard is live and at
most one thread has the graphics context current. -/
theorem safeContext_at_most_one_guard (s : LockState) (h : ReachableLock s) :
    s.guards.length ≤ 1 ∧ s.current.length ≤ 1 := by
  rcases lockInv_reachable s h with ⟨_, hg, hc⟩ | ⟨_, t, hg, hc⟩ <;> simp [hg, hc]

theorem safeContext_at_most_one_guard_witness :
    (LockState.mk false [0] [0]).guards.length ≤ 1 ∧
    (LockState.mk false [0] [0]).current.length ≤ 1 :=
  safeContext_at_most_one_guard (LockState.mk false [0] [0])
    (ReachableLock.step initLock (LockEv.lock 0) (LockState.mk false [0] [0])
      ReachableLock.init (LockStep.lock 0 [] []))

/-- C6: if the first `create_context` attempt at version (4,6) fails, exactly
one retry at (3,3) is attempted; the retry's success is returned, the retry's
failure fails the construction with the error message of `Context::new`, and
no third attempt is ever made. -/
theorem negotiate_retries_once (env : Nat → Nat → Option Nat)
    (h46 : env 4 6 = Option.none) :
    (Context.negotiate env).1 = [(4, 6), (3, 3)] ∧
    (Context.negotiate env).1.length = 2 ∧
    (∀ v, env 3 3 = Option.some v → (Context.negotiate env).2 = Except.ok v) ∧
    (env 3 3 = Option.none →
      (Context.negotiate env).2 = Except.error (lit "Foo")) := by
  unfold Context.negotiate
  rw [h46]
  cases h33 : env 3 3 <;> simp [h33]

theorem negotiate_retries_once_witness :
    (Context.negotiate (fun _ _ => Option.none)).1 = [(4, 6), (3, 3)] ∧
    (Context.negotiate (fun _ _ => Option.none)).1.length = 2 ∧
    (∀ v, (fun (_ _ : Nat) => Option.none (α := Nat)) 3 3 = Option.some v →
      (Context.negotiate (fun _ _ => Option.none)).2 = Except.ok v) ∧
    ((fun (_ _ : Nat) => Option.none (α := Nat)) 3 3 = Option.none →
      (Context.negotiate (fun _ _ => Option.none)).2 = Except.error (lit "Foo")) :=
  negotiate_retries_once (fun _ _ => Option.none) rfl

theorem startsWithB_self_append (p y : Str) : startsWithB p (p ++ y) = true := by
  induction p with
  | nil => simp [startsWithB]
  | cons a as ih => simp [startsWithB, ih]

theorem isInfixB_self_append (p y : Str) : isInfixB p (p ++ y) = true := by
  cases p with
  | nil => cases y <;> simp [isInfixB, startsWithB]
  | cons a as =>
    have h : (a :: as) ++ y = a :: (as ++ y) := rfl
    rw [h, isInfixB, ← h, startsWithB_self_append]
    simp

theorem isInfixB_append_left (p : Str) (x : Str) {t : Str}
    (h : isInfixB p t = true) : isInfixB p (x ++ t) = true := by
  induction x with
  | nil => simpa
  | cons c cs ih =>
    have h2 : (c :: cs) ++ t = c :: (cs ++ t) := rfl
    rw [h2, isInfixB, ih]
    simp

theorem isInfixB_middle (p x y : Str) : isInfixB p (x ++ p ++ y) = true := by
  have := isInfixB_append_left p x (isInfixB_self_append p y)
  simpa [List.append_assoc] using this

/-- C5: whenever the driver created the program object (so a link attempt
happens), `Shader::link` deletes both stage objects regardless of the link
status; on link failure it captures the driver's info log into the warning
and returns the fixed link error. -/
theorem link_deletes_both_stages (gl : GlLinkOracle) (v f : Nat)
    (hc : gl.createOk = true) :
    (Shader.link gl v f).deleted = [v, f] ∧
    (gl.linkOk = false →
      (Shader.link gl v f).warned = [linkWarn gl.infoLog] ∧
      isInfixB gl.infoLog (linkWarn gl.infoLog) = true ∧
      (Shader.link gl v f).result =
        Except.error (lit "failed to link shader program")) ∧
    (gl.linkOk = true → (Shader.link gl v f).result = Except.ok gl.programId) := by
  unfold Shader.link
  rw [hc]
  have h1 := isInfixB_middle gl.infoLog (lit "Failed to link shader: [[\n")
    (lit "\n]]")
  cases hl : gl.linkOk
  · simp [hl, linkWarn]
    simpa [List.append_assoc] using h1
  · simp [hl]

theorem link_deletes_both_stages_witness :
    (Shader.link ⟨true, 9, false, lit "bad link⟩"⟩ 4 5).deleted = [4, 5] :=
  (link_deletes_both_stages ⟨true, 9, false, lit "bad link⟩"⟩ 4 5 rfl).1

/-- C4 counterexample: on a failing vertex-stage compile the returned error
value is the fixed message `failed to compile shader program`, which does not
contain the failing stage's source identifier `rust_solid.vert`; the claim
that the compile error names the identifier is false at this input. -/
theorem compile_error_value_lacks_identifier :
    (Shader.compile ⟨true, 7, false, lit "0:1 error"⟩ (lit "rust_solid.vert")
      (lit "void main x")).result =
      Except.error (lit "failed to compile shader program") ∧
    isInfixB (lit "rust_solid.vert")
      (lit "failed to compile shader program") = false :=
  ⟨rfl, rfl⟩

/-- C4 (amended): on a failing stage compile, `Shader::compile` logs every
line of the composed source with its 0-based line number, captures the
driver's info log into a warning that names the failing stage's source
identifier, and fails with the fixed error message
`failed to compile shader program` (the identifier appears in the warning,
not in the returned error value). -/
theorem compile_failure_diagnostics (gl : GlShaderOracle) (nm src : Str)
    (hc : gl.createOk = true) (hf : gl.compileOk = false) :
    (Shader.compile gl nm src).logged = (linesR src).enum ∧
    (Shader.compile gl nm src).warned = [compileWarn nm gl.infoLog] ∧
    isInfixB nm (compileWarn nm gl.infoLog) = true ∧
    isInfixB gl.infoLog (compileWarn nm gl.infoLog) = true ∧
    (Shader.compile gl nm src).result =
      Except.error (lit "failed to compile shader program") := by
  unfold Shader.compile
  rw [hc, hf]
  refine ⟨rfl, rfl, ?_, ?_, rfl⟩
  · have := isInfixB_middle nm (lit "Failed to compile shader '")
      (lit "': [[\n" ++ gl.infoLog ++ lit "\n]]")
    simpa [compileWarn, List.append_assoc] using this
  · have := isInfixB_middle gl.infoLog
      (lit "Failed to compile shader '" ++ nm ++ lit "': [[\n") (lit "\n]]")
    simpa [compileWarn, List.append_assoc] using this

theorem compile_failure_diagnostics_witness :
    (Shader.compile ⟨true, 7, false, lit "L"⟩ (lit "N") (lit "a\nb")).warned =
      [compileWarn (lit "N") (lit "L")] ∧
    (Shader.compile ⟨true, 7, false, lit "L"⟩ (lit "N") (lit "a\nb")).logged =
      (linesR (lit "a\nb")).enum :=
  ⟨(compile_failure_diagnostics ⟨true, 7, false, lit "L"⟩ (lit "N") (lit "a\nb")
      rfl rfl).2.1,
   (compile_failure_diagnostics ⟨true, 7, false, lit "L"⟩ (lit "N") (lit "a\nb")
      rfl rfl).1⟩

/-- C10: when the process-wide singleton slot is already populated, the
publication attempt in `Context::new` is a silent no-op and the function
returns the previously published context, not the one it just constructed. -/
theorem publish_returns_previous (old ctx : Nat) (h : ctx ≠ old) :
    Context.publish (Option.some old) ctx = (Option.some old, old) ∧
    (Context.publish (Option.some old) ctx).2 ≠ ctx := by
  constructor
  · rfl
  · simpa [Context.publish, onceLockSet] using fun hEq => h hEq.symm

theorem publish_returns_previous_witness :
    Context.publish (Option.some 0) 1 = (Option.some 0, 0) ∧
    (Context.publish (Option.some 0) 1).2 ≠ 1 :=
  publish_returns_previous 0 1 (by decide)

theorem dropWhile_head_false (p : Char → Bool) :
    ∀ (l : Str) (c : Char), (l.dropWhile p).head? = Option.some c → p c = false := by
  intro l
  induction l with
  | nil => intro c h; simp [List.dropWhile] at h
  | cons a as ih =>
    intro c h
    by_cases hpa : p a
    · rw [List.dropWhile_cons_of_pos hpa] at h
      exact ih c h
    · rw [List.dropWhile_cons_of_neg hpa] at h
      simp at h
      subst h
      simpa using hpa

theorem mem_of_mem_dropWhile (p : Char → Bool) :
    ∀ (l : Str) (c : Char), c ∈ l.dropWhile p → c ∈ l := by
  intro l
  induction l with
  | nil => intro c h; simp [List.dropWhile] at h
  | cons a as ih =>
    intro c h
    by_cases hpa : p a
    · rw [List.dropWhile_cons_of_pos hpa] at h
      exact List.mem_cons_of_mem a (ih c h)
    · rwa [List.dropWhile_cons_of_neg hpa] at h

theorem trimRightS_head? (l : Str) :
    trimRightS l = [] ∨ (trimRightS l).head? = l.head? := by
  induction l with
  | nil => exact Or.inl rfl
  | cons c cs ih =>
    simp only [trimRightS]
    cases h : trimRightS cs with
    | nil =>
      by_cases hws : isWS c
      · simp [hws]
      · simp [hws]
    | cons r rs => simp

theorem mem_of_mem_trimRightS :
    ∀ (l : Str) (c : Char), c ∈ trimRightS l → c ∈ l := by
  intro l
  induction l with
  | nil => intro c h; simp [trimRightS] at h
  | cons a cs ih =>
    intro c h
    simp only [trimRightS] at h
    cases h2 : trimRightS cs with
    | nil =>
      rw [h2] at h
      by_cases hws : isWS a
      · simp [hws] at h
      · simp [hws] at h
        simp [h]
    | cons r rs =>
      rw [h2] at h
      rcases List.mem_cons.mp h with rfl | hmem
      · simp
      · exact List.mem_cons_of_mem a (ih c (h2 ▸ hmem))

theorem trimRightS_getLast? (l : Str) :
    ∀ c, (trimRightS l).getLast? = Option.some c → isWS c = false := by
  induction l with
  | nil => intro c h; simp [trimRightS] at h
  | cons a cs ih =>
    intro c h
    simp only [trimRightS] at h
    cases h2 : trimRightS cs with
    | nil =>
      rw [h2] at h
      by_cases hws : isWS a
      · simp [hws] at h
      · simp [hws] at h
        subst h
        simpa using hws
    | cons r rs =>
      rw [h2] at h
      rw [List.getLast?_cons_cons] at h
      exact ih c (h2 ▸ h)

theorem trimRightS_cons_eq (a : Char) (l : Str) :
    trimRightS (a :: l) =
      match trimRightS l with
      | [] => if isWS a = true then [] else [a]
      | q => a :: q := rfl

theorem trimRightS_idem (l : Str) : trimRightS (trimRightS l) = trimRightS l := by
  induction l with
  | nil => rfl
  | cons a cs ih =>
    cases h : trimRightS cs with
    | nil =>
      rw [trimRightS_cons_eq, h]
      by_cases hws : isWS a
      · simp [hws, trimRightS]
      · simp [hws, trimRightS_cons_eq, trimRightS]
    | cons r rs =>
      have ha : trimRightS (a :: cs) = a :: r :: rs := by
        rw [trimRightS_cons_eq, h]
      have h3 : trimRightS (r :: rs) = r :: rs := by
        rw [← h]; exact ih
      rw [ha, trimRightS_cons_eq, h3]

theorem trimS_getLast? (s : Str) :
    ∀ c, (trimS s).getLast? = Option.some c → isWS c = false :=
  trimRightS_getLast? (trimLeftS s)

theorem mem_of_mem_trimS (s : Str) (c : Char) (h : c ∈ trimS s) : c ∈ s :=
  mem_of_mem_dropWhile isWS s c (mem_of_mem_trimRightS (trimLeftS s) c h)

theorem trimS_idem (s : Str) : trimS (trimS s) = trimS s := by
  have hdw : trimLeftS (trimRightS (trimLeftS s)) = trimRightS (trimLeftS s) := by
    cases h : trimRightS (trimLeftS s) with
    | nil => rfl
    | cons c r =>
      have hc : isWS c = false := by
        rcases trimRightS_head? (trimLeftS s) with h0 | h0
        · rw [h0] at h; simp at h
        · rw [h] at h0
          exact dropWhile_head_false isWS s c h0.symm
      show List.dropWhile isWS (c :: r) = c :: r
      rw [List.dropWhile_cons_of_neg (by simp [hc])]
  show trimRightS (trimLeftS (trimRightS (trimLeftS s))) = trimRightS (trimLeftS s)
  rw [hdw, trimRightS_idem]

theorem mem_of_mem_dropCRrev :
    ∀ (cur : Str) (c : Char), c ∈ dropCRrev cur → c ∈ cur := by
  intro cur c h
  cases cur with
  | nil => simp [dropCRrev] at h
  | cons a rest =>
    simp only [dropCRrev] at h
    by_cases ha : a = '\r'
    · rw [if_pos ha] at h
      exact List.mem_cons_of_mem a (List.mem_reverse.mp h)
    · rw [if_neg ha] at h
      exact List.mem_reverse.mp h

theorem dropCRrev_reverse (l : Str)
    (h : ∀ c, l.getLast? = Option.some c → c ≠ '\r') :
    dropCRrev l.reverse = l := by
  cases hrev : l.reverse with
  | nil =>
    have : l = [] := List.reverse_eq_nil_iff.mp hrev
    simp [this, dropCRrev]
  | cons c r =>
    have hc : l.getLast? = Option.some c := by
      rw [← List.head?_reverse, hrev]; rfl
    have hcr : c ≠ '\r' := h c hc
    show dropCRrev (c :: r) = l
    rw [dropCRrev, if_neg hcr, ← hrev, List.reverse_reverse]

theorem linesAux_append (l : Str) (h : ∀ c ∈ l, c ≠ '\n') :
    ∀ (s cur : Str), linesAux (l ++ s) cur = linesAux s (l.reverse ++ cur) := by
  induction l with
  | nil => intro s cur; simp
  | cons c cs ih =>
    intro s cur
    have hc : c ≠ '\n' := h c (by simp)
    have hcs : ∀ c' ∈ cs, c' ≠ '\n' := fun c' hc' => h c' (by simp [hc'])
    simp only [List.cons_append, linesAux, if_neg hc, List.append_eq]
    rw [ih hcs s (c :: cur)]
    congr 1
    simp

theorem linesAux_no_newline :
    ∀ (s cur : Str), (∀ c ∈ cur, c ≠ '\n') →
      ∀ l ∈ linesAux s cur, ∀ c ∈ l, c ≠ '\n' := by
  intro s
  induction s with
  | nil =>
    intro cur hcur l hl c hc
    simp only [linesAux] at hl
    by_cases hemp : cur.isEmpty
    · simp [hemp] at hl
    · simp [hemp] at hl
      subst hl
      exact hcur c (List.mem_reverse.mp hc)
  | cons a as ih =>
    intro cur hcur l hl c hc
    by_cases ha : a = '\n'
    · subst ha
      simp only [linesAux, if_pos rfl] at hl
      rcases List.mem_cons.mp hl with rfl | hmem
      · exact hcur c (mem_of_mem_dropCRrev cur c hc)
      · exact ih [] (by simp) l hmem c hc
    · simp only [linesAux, if_neg ha] at hl
      refine ih (a :: cur) ?_ l hl c hc
      intro c' hc'
      rcases List.mem_cons.mp hc' with rfl | hmem
      · exact ha
      · exact hcur c' hmem

theorem linesR_unlines (ls : List Str)
    (h : ∀ l ∈ ls, (∀ c ∈ l, c ≠ '\n') ∧ dropCRrev l.reverse = l) :
    linesR (unlines ls) = ls := by
  induction ls with
  | nil => rfl
  | cons l ls ih =>
    obtain ⟨hnl, hcr⟩ := h l (by simp)
    have hrest : ∀ l' ∈ ls, (∀ c ∈ l', c ≠ '\n') ∧ dropCRrev l'.reverse = l' :=
      fun l' hl' => h l' (by simp [hl'])
    show linesAux (l ++ '\n' :: unlines ls) [] = l :: ls
    rw [linesAux_append l hnl]
    simp only [List.append_nil, linesAux, if_pos rfl]
    rw [hcr]
    exact congrArg (l :: ·) (ih hrest)

theorem splitOnChar_no_sep (sep : Char) :
    ∀ s : Str, (∀ c ∈ s, c ≠ sep) → splitOnChar sep s = [s] := by
  intro s
  induction s with
  | nil => intro h; rfl
  | cons c cs ih =>
    intro h
    have hc : c ≠ sep := h c (by simp)
    have hcs : ∀ c' ∈ cs, c' ≠ sep := fun c' h' => h c' (by simp [h'])
    simp only [splitOnChar, if_neg hc, ih hcs]

theorem ppWith_no_include (ld : Str → List Str × Except PErr Str) :
    ∀ ls : List Str, (∀ l ∈ ls, isIncludeLine l = false) →
      ppWith ld ls = ([], Except.ok (unlines (ls.map trimS))) := by
  intro ls
  induction ls with
  | nil => intro h; rfl
  | cons l ls ih =>
    intro h
    have hl : startsWithB (lit "#include") (trimS l) = false := h l (by simp)
    have hls : ∀ l' ∈ ls, isIncludeLine l' = false :=
      fun l' hl' => h l' (by simp [hl'])
    simp only [ppWith, hl, Bool.false_eq_true, if_false, ih hls, unlines, List.map_cons]

theorem ppWith_syntax_error (ld : Str → List Str × Except PErr Str)
    (pre : List Str) (l : Str) (post : List Str)
    (hpre : ∀ l' ∈ pre, isIncludeLine l' = false)
    (hl : isIncludeLine l = true)
    (hq : ∀ c ∈ trimS l, c ≠ '"') :
    ppWith ld (pre ++ l :: post) = ([], Except.error PErr.syntaxErr) := by
  induction pre with
  | nil =>
    have hl' : startsWithB (lit "#include") (trimS l) = true := hl
    have hsplit := splitOnChar_no_sep '"' (trimS l) hq
    simp only [List.nil_append, ppWith, hl', if_true, hsplit, List.get?]
  | cons p ps ih =>
    have hp : startsWithB (lit "#include") (trimS p) = false := hpre p (by simp)
    have hps : ∀ l' ∈ ps, isIncludeLine l' = false :=
      fun l' h' => hpre l' (by simp [h'])
    have hres := ih hps
    simp only [List.cons_append, ppWith, hp, Bool.false_eq_true, if_false,
      List.append_eq, hres]

/-- C3 counterexample: the directive line `#include "b` (opening quote, no
closing quote) does not produce a syntax error — `split('"').nth(1)` yields
`b`, so `preprocess` loads the file `glsl/b` and succeeds, returning the
preprocessed contents of `b`. -/
theorem include_without_closing_quote_loads_file :
    preprocess fsB 2 (lit "#include \"b") =
      ([lit "glsl/b"], Except.ok (lit "X\n\n")) ∧
    (preprocess fsB 2 (lit "#include \"b")).2 ≠ Except.error PErr.syntaxErr ∧
    (preprocess fsB 2 (lit "#include \"b")).1 ≠ [] := by
  have h : preprocess fsB 2 (lit "#include \"b") =
      ([lit "glsl/b"], Except.ok (lit "X\n\n")) := rfl
  exact ⟨h, by rw [h]; simp, by rw [h]; simp⟩

/-- C3 (amended): an include-directive line containing no double-quote
character at all makes `preprocess` fail with the `#include` syntax error,
and when no earlier line of the input is an include directive, no file load
has been performed at that point (no partial side effects).  A directive with
an opening quote but no closing quote instead treats the text after the
quote as the include path and attempts to load that file. -/
theorem preprocess_syntax_error_no_quote (fs : Str → Option Str) (fuel : Nat)
    (d : Str) (pre : List Str) (l : Str) (post : List Str)
    (hsplit : linesR d = pre ++ l :: post)
    (hpre : ∀ l' ∈ pre, isIncludeLine l' = false)
    (hl : isIncludeLine l = true)
    (hq : ∀ c ∈ trimS l, c ≠ '"') :
    preprocess fs fuel d = ([], Except.error PErr.syntaxErr) := by
  unfold preprocess
  rw [hsplit]
  exact ppWith_syntax_error _ pre l post hpre hl hq

theorem preprocess_syntax_error_no_quote_witness :
    preprocess (fun _ => Option.none) 1 (lit "x\n#include") =
      ([], Except.error PErr.syntaxErr) :=
  preprocess_syntax_error_no_quote (fun _ => Option.none) 1
    (lit "x\n#include") [lit "x"] (lit "#include") []
    (by decide) (by decide) (by decide) (by decide)

/-- C8: on input containing no include-directive lines, preprocessing is
idempotent: `preprocess` succeeds with output `out` (each line trimmed and
newline-terminated, no file loaded), and running `preprocess` on `out`
returns exactly `out` again. -/
theorem preprocess_idempotent (fs : Str → Option Str) (fuel : Nat) (d : Str)
    (h : noIncludeLine d) :
    ∃ out, preprocess fs fuel d = ([], Except.ok out) ∧
      preprocess fs fuel out = ([], Except.ok out) := by
  refine ⟨unlines ((linesR d).map trimS), ?_, ?_⟩
  · exact ppWith_no_include _ _ h
  · unfold preprocess
    have hnl : ∀ l ∈ linesR d, ∀ c ∈ l, c ≠ '\n' :=
      fun l hl c hc =>
        linesAux_no_newline d [] (by simp) l hl c hc
    have hlines : linesR (unlines ((linesR d).map trimS)) = (linesR d).map trimS := by
      apply linesR_unlines
      intro l hl
      obtain ⟨l0, hl0, rfl⟩ := List.mem_map.mp hl
      constructor
      · intro c hc
        exact hnl l0 hl0 c (mem_of_mem_trimS l0 c hc)
      · refine dropCRrev_reverse (trimS l0) ?_
        intro c hc hcr
        subst hcr
        have := trimS_getLast? l0 '\r' hc
        simp [isWS] at this
    rw [hlines]
    have h2 : ∀ l ∈ (linesR d).map trimS, isIncludeLine l = false := by
      intro l hl
      obtain ⟨l0, hl0, rfl⟩ := List.mem_map.mp hl
      show startsWithB (lit "#include") (trimS (trimS l0)) = false
      rw [trimS_idem]
      exact h l0 hl0
    have hmm : List.map (trimS ∘ trimS) (linesR d) = List.map trimS (linesR d) :=
      List.map_congr_left (fun l0 _ => trimS_idem l0)
    rw [ppWith_no_include _ _ h2, List.map_map, hmm]

theorem preprocess_idempotent_witness :
    ∃ out, preprocess (fun _ => Option.none) 1 (lit " a\nb ") = ([], Except.ok out) ∧
      preprocess (fun _ => Option.none) 1 out = ([], Except.ok out) :=
  preprocess_idempotent (fun _ => Option.none) 1 (lit " a\nb ")
    (by unfold noIncludeLine; decide)

theorem digitChar_bounds (d : Nat) (hd : d < 10) :
    48 ≤ (digitChar d).toNat ∧ (digitChar d).toNat ≤ 57 := by
  interval_cases d <;> decide

theorem natCharsAux_bounds :
    ∀ (n : Nat) (acc : Str), (∀ c ∈ acc, 48 ≤ c.toNat ∧ c.toNat ≤ 57) →
      ∀ c ∈ natCharsAux n acc, 48 ≤ c.toNat ∧ c.toNat ≤ 57 := by
  intro n
  induction n using Nat.strong_induction_on with
  | _ n ih =>
    intro acc hacc c hc
    rw [natCharsAux] at hc
    by_cases h10 : n < 10
    · rw [dif_pos h10] at hc
      rcases List.mem_cons.mp hc with rfl | hmem
      · exact digitChar_bounds n h10
      · exact hacc c hmem
    · rw [dif_neg h10] at hc
      refine ih (n / 10) (Nat.div_lt_self (by omega) (by omega)) _ ?_ c hc
      intro c' hc'
      rcases List.mem_cons.mp hc' with rfl | hmem
      · exact digitChar_bounds (n % 10) (Nat.mod_lt n (by omega))
      · exact hacc c' hmem

theorem natCharsAux_ne_nil :
    ∀ (n : Nat) (acc : Str), natCharsAux n acc ≠ [] := by
  intro n
  induction n using Nat.strong_induction_on with
  | _ n ih =>
    intro acc
    rw [natCharsAux]
    by_cases h10 : n < 10
    · rw [dif_pos h10]; simp
    · rw [dif_neg h10]
      exact ih (n / 10) (Nat.div_lt_self (by omega) (by omega)) _

theorem natChars_no_newline (n : Nat) : ∀ c ∈ natChars n, c ≠ '\n' := by
  intro c hc heq
  have hb := natCharsAux_bounds n [] (by simp) c hc
  subst heq
  simp at hb

theorem versionLine_no_newline (glsl : Nat) : ∀ c ∈ versionLine glsl, c ≠ '\n' := by
  intro c hc
  rcases List.mem_append.mp hc with hmem | hmem
  · have hlit : ∀ x ∈ lit "#version ", x ≠ '\n' := by decide
    exact hlit c hmem
  · exact natChars_no_newline glsl c hmem

theorem versionLine_getLast_ne_cr (glsl : Nat) :
    ∀ c, (versionLine glsl).getLast? = Option.some c → c ≠ '\r' := by
  intro c hc heq
  have hne : natChars glsl ≠ [] := natCharsAux_ne_nil glsl []
  rw [versionLine, List.getLast?_append_of_ne_nil _ hne] at hc
  have hmem : c ∈ natChars glsl := List.mem_of_mem_getLast? hc
  have hb := natCharsAux_bounds glsl [] (by simp) c hmem
  subst heq
  simp at hb

theorem linesR_head_version (glsl : Nat) (rest : Str) :
    linesR (versionLine glsl ++ '\n' :: rest) = versionLine glsl :: linesR rest := by
  show linesAux (versionLine glsl ++ '\n' :: rest) [] = _
  rw [linesAux_append (versionLine glsl) (versionLine_no_newline glsl)]
  simp only [List.append_nil, linesAux, if_pos rfl]
  rw [dropCRrev_reverse (versionLine glsl) (versionLine_getLast_ne_cr glsl)]
  rfl

theorem glslPrologue_decomp (glsl : Nat) :
    glslPrologue glsl = versionLine glsl ++ '\n' ::
      (lit "\n#define GLSL_VERSION " ++ natChars glsl ++
        lit "\n#define HAS_GL_ARB_shader_subroutine 1\n") := by
  have hsplit : lit "\n\n#define GLSL_VERSION " =
      '\n' :: lit "\n#define GLSL_VERSION " := rfl
  rw [glslPrologue, versionLine, hsplit]
  simp [List.append_assoc]

theorem composed_head (glsl : Nat) (tail : Str) :
    (linesR (glslPrologue glsl ++ tail)).head? = Option.some (versionLine glsl) := by
  rw [glslPrologue_decomp]
  have hassoc :
      (versionLine glsl ++ '\n' ::
        (lit "\n#define GLSL_VERSION " ++ natChars glsl ++
          lit "\n#define HAS_GL_ARB_shader_subroutine 1\n")) ++ tail =
      versionLine glsl ++ '\n' ::
        ((lit "\n#define GLSL_VERSION " ++ natChars glsl ++
          lit "\n#define HAS_GL_ARB_shader_subroutine 1\n") ++ tail) := by
    simp [List.append_assoc]
  rw [hassoc, linesR_head_version]
  rfl

theorem composeStage_eq (glsl : Nat) (p body : Str) :
    composeStage glsl p body = glslPrologue glsl ++ (p ++ body) := by
  unfold composeStage
  cases p <;> simp

/-- C7: when both stage sources resolve, `ShaderBuilder::build` composes each
stage's final source as generated prologue, then the caller prepend, then the
preprocessed body — and the `#version` directive is the first line of the
composed source, with the caller prepend inserted after the generated
prologue. -/
theorem buildSources_composition (fs : Str → Option Str) (fuel glsl : Nat)
    (b : ShaderBuilderS) (vb fb : Str)
    (hv : (ShaderSource.resolve fs fuel b.vert).2 = Except.ok vb)
    (hf : (ShaderSource.resolve fs fuel b.frag).2 = Except.ok fb) :
    buildSources fs fuel glsl b =
      Except.ok (glslPrologue glsl ++ b.prepend ++ vb,
        glslPrologue glsl ++ b.prepend ++ fb) ∧
    (linesR (glslPrologue glsl ++ b.prepend ++ vb)).head? =
      Option.some (versionLine glsl) ∧
    (linesR (glslPrologue glsl ++ b.prepend ++ fb)).head? =
      Option.some (versionLine glsl) := by
  refine ⟨?_, ?_, ?_⟩
  · unfold buildSources
    rw [hv, hf]
    show Except.ok (composeStage glsl b.prepend vb, composeStage glsl b.prepend fb) = _
    rw [composeStage_eq, composeStage_eq]
    simp [List.append_assoc]
  · have := composed_head glsl (b.prepend ++ vb)
    simpa [List.append_assoc] using this
  · have := composed_head glsl (b.prepend ++ fb)
    simpa [List.append_assoc] using this

theorem buildSources_composition_witness :
    buildSources (fun _ => Option.none) 1 460
      ⟨ShaderSource.data (lit "vb"), ShaderSource.data (lit "fb"), lit "P\n"⟩ =
      Except.ok (glslPrologue 460 ++ lit "P\n" ++ lit "vb\n",
        glslPrologue 460 ++ lit "P\n" ++ lit "fb\n") :=
  (buildSources_composition (fun _ => Option.none) 1 460
    ⟨ShaderSource.data (lit "vb"), ShaderSource.data (lit "fb"), lit "P\n"⟩
    (lit "vb\n") (lit "fb\n") rfl rfl).1

/-- C9 counterexample: on the failure path of the uniform write in
`Context::draw_rect` / `draw_rect_ex` (the `?` early return), the function
exits with the square vertex array still bound — the vertex-array bind is not
paired with an unbind on this failure path, and no draw call was issued. -/
theorem drawRect_failure_leaves_vao_bound :
    (replay initBind (drawRect ⟨1, 2, 3⟩ false).1).vao = Option.some 2 ∧
    drawCount (drawRect ⟨1, 2, 3⟩ false).1 = 0 ∧
    (drawRect ⟨1, 2, 3⟩ false).2 = Except.error () :=
  ⟨rfl, rfl, rfl⟩

/-- C9 (amended): on the success path, `draw_rect` issues exactly one draw
call, at which point the shared solid-shader program and the shared square
vertex array are the ones bound, and afterwards no vertex-array or
uniform-buffer binding remains active; on the failure path of the uniform
write, the function returns early with the vertex array still bound. -/
theorem drawRect_success_one_draw (c : DrawCtx) (wOk : Bool) (h : wOk = true) :
    ∃ pre post,
      (drawRect c wOk).1 = pre ++ GlEv.drawArrays 4 :: post ∧
      (replay initBind pre).program = Option.some c.programSolid ∧
      (replay initBind pre).vao = Option.some c.vaoSquare ∧
      drawCount (drawRect c wOk).1 = 1 ∧
      (replay initBind (drawRect c wOk).1).vao = Option.none ∧
      (replay initBind (drawRect c wOk).1).uniformBinding = Option.none ∧
      (drawRect c wOk).2 = Except.ok () := by
  subst h
  refine ⟨[.useProgram c.programSolid, .bindVertexArray c.vaoSquare,
    .writeBuffer c.bufferSolid, .bindBufferBase c.bufferSolid 0],
    [.unbindVertexArray, .unbindBuffer c.bufferSolid], ?_, ?_, ?_, ?_, ?_, ?_, ?_⟩ <;>
    simp [drawRect, drawRectEx, replay, applyEv, drawCount, initBind]

theorem drawRect_success_one_draw_witness :
    drawCount (drawRect ⟨1, 2, 3⟩ true).1 = 1 := by
  obtain ⟨pre, post, hsplit, h1, h2, h3, h4, h5, h6⟩ :=
    drawRect_success_one_draw ⟨1, 2, 3⟩ true rfl
  exact h3
